import Mathlib

/-!
Shallow embedding of the request-handling core of mimic-proxy
(pkg/mimicproxy: headers.go, route.go, the configuration part of logger.go),
together with the Go standard-library steps the pipeline runs through
(net/http/httputil.ReverseProxy and net/textproto header keys), modelled
explicitly where their behaviour matters to the properties below.

Strings are modelled as Lean `String`; Go byte slicing is modelled as
character slicing (the header names and URL components in play are ASCII).
Go maps (http.Header, the replace/add header maps, the process environment)
are modelled as association lists with a fixed iteration order, and Go map
equality is stated pointwise through `hLookup`.
-/

namespace MimicProxy

/-- The opening curly-brace character, written by code point to keep brace
characters out of string literals. -/
def lbrace : Char := Char.ofNat 123

/-- The closing curly-brace character, written by code point. -/
def rbrace : Char := Char.ofNat 125

/-- Go `strings.ToLower` (the names in play are ASCII). -/
def goToLower (s : String) : String := ⟨s.data.map Char.toLower⟩

/-- Prefix test on character lists: true when the second list is an initial
segment of the first (the characters of Go `strings.HasPrefix`). -/
def listHasPref : List Char → List Char → Bool
  | _, [] => true
  | [], _ :: _ => false
  | c :: s, p :: ps => c == p && listHasPref s ps

/-- Go `strings.HasPrefix`. -/
def goHasPrefix (s pre : String) : Bool := listHasPref s.data pre.data

/-- Go `strings.HasSuffix`. -/
def goHasSuffix (s suf : String) : Bool := listHasPref s.data.reverse suf.data.reverse

/-- Go slicing from a character position onward. -/
def strDrop (s : String) (n : Nat) : String := ⟨s.data.drop n⟩

/-- Go `strings.TrimPrefix`. -/
def goTrimPrefix (s pre : String) : String :=
  if goHasPrefix s pre then strDrop s pre.length else s

/-- Go `strings.TrimSuffix`. -/
def goTrimSuffix (s suf : String) : String :=
  if goHasSuffix s suf then ⟨s.data.take (s.data.length - suf.data.length)⟩ else s

/-- The characters of Go `strings.Split` on a comma. -/
def splitOnComma : List Char → List (List Char)
  | [] => [[]]
  | c :: rest =>
    if c == ',' then [] :: splitOnComma rest
    else
      match splitOnComma rest with
      | [] => [[c]]
      | w :: ws => (c :: w) :: ws

/-- Go `strings.Split(s, ",")`. -/
def goSplitComma (s : String) : List String := (splitOnComma s.data).map String.mk

/-- Whitespace as trimmed by Go `strings.TrimSpace` (ASCII cases). -/
def isSpaceChar (c : Char) : Bool := c == ' ' || c == '\t' || c == '\n' || c == '\r'

/-- Go `strings.TrimSpace`. -/
def goTrimSpace (s : String) : String :=
  ⟨((s.data.dropWhile isSpaceChar).reverse.dropWhile isSpaceChar).reverse⟩

/-- Go `strings.Join` with the separator of a comma and a space (the separator
used by the ReverseProxy X-Forwarded-For step). -/
def joinCommaSpace : List String → String
  | [] => ""
  | [s] => s
  | s :: rest => s ++ ", " ++ joinCommaSpace rest

/-- The characters of `textproto.CanonicalMIMEHeaderKey`: the first letter and
every letter after a dash upper-cased, every other letter lower-cased. (Go
leaves a key containing a non-token byte unchanged; every header name in play
is a plain token.) -/
def canonChars (upper : Bool) : List Char → List Char
  | [] => []
  | c :: rest =>
    if c == '-' then c :: canonChars true rest
    else (if upper then c.toUpper else c.toLower) :: canonChars false rest

/-- `textproto.CanonicalMIMEHeaderKey`, used by http.Header Get/Set/Add/Del. -/
def canonicalKey (s : String) : String := ⟨canonChars true s.data⟩

/-- `http.Header`: a Go map from header name to its list of values, modelled as
an association list. -/
abbrev Header := List (String × List String)

/-- Go map indexing on a Header (no canonicalisation, exact key): the values
stored under the key, or none when the key is absent. -/
def hLookup : Header → String → Option (List String)
  | [], _ => none
  | e :: t, k => if e.1 == k then some e.2 else hLookup t k

/-- `http.Header.Get`: the first value stored under the canonical key, or the
empty string when the key is absent. -/
def hGet (h : Header) (k : String) : String :=
  match hLookup h (canonicalKey k) with
  | some (v :: _) => v
  | _ => ""

/-- `http.Header.Del`. -/
def hDel (h : Header) (k : String) : Header :=
  h.filter (fun e => !(e.1 == canonicalKey k))

/-- `http.Header.Set`: the canonical key now maps to exactly the one value. -/
def hSet (h : Header) (k v : String) : Header :=
  hDel h k ++ [(canonicalKey k, [v])]

/-- `http.Header.Add`: appends a value under the canonical key. -/
def hAdd (h : Header) (k v : String) : Header :=
  match hLookup h (canonicalKey k) with
  | some vs => hDel h k ++ [(canonicalKey k, vs ++ [v])]
  | none => h ++ [(canonicalKey k, [v])]

/-- headers.go `matchesPattern`: case-insensitive; exact match, or, when the
pattern contains a star, prefix match against the pattern with a trailing star
removed. -/
def matchesPattern (headerName pattern : String) : Bool :=
  let headerName := goToLower headerName
  let pattern := goToLower pattern
  if headerName == pattern then true
  else if pattern.data.contains '*' then
    goHasPrefix headerName (goTrimSuffix pattern "*")
  else false

/-- headers.go `stripHeaders`: keeps exactly the entries whose name matches no
pattern. -/
def stripHeaders (header : Header) (patterns : List String) : Header :=
  header.filter (fun e => !(patterns.any (fun pattern => matchesPattern e.1 pattern)))

/-- The process environment; `os.Getenv` reads an unset variable as the empty
string. -/
abbrev Env := List (String × String)

/-- `os.Getenv`. -/
def getenv (env : Env) (name : String) : String :=
  ((env.find? (fun e => e.1 == name)).map (fun e => e.2)).getD ""

/-- Splits a character list at the first closing brace: the characters before
it and the characters after it. This is the closing-brace search of
headers.go `expandEnvVars`. -/
def splitAtClose : List Char → Option (List Char × List Char)
  | [] => none
  | c :: rest =>
    if c == rbrace then some ([], rest)
    else
      match splitAtClose rest with
      | none => none
      | some (name, rest') => some (c :: name, rest')

/-- The remainder returned by `splitAtClose` is no longer than its input
(needed for the termination of `expandEnvChars`). -/
def splitAtClose_length_le :
    ∀ l name rest, splitAtClose l = some (name, rest) → rest.length ≤ l.length := by
  intro l
  induction l with
  | nil => intro name rest h; simp [splitAtClose] at h
  | cons c t ih =>
    intro name rest h
    rw [splitAtClose] at h
    by_cases hc : c == rbrace
    · rw [if_pos hc] at h
      simp only [Option.some.injEq, Prod.mk.injEq] at h
      obtain ⟨h1, h2⟩ := h
      subst h2
      simp only [List.length_cons]
      omega
    · rw [if_neg hc] at h
      rcases hsplit : splitAtClose t with _ | ⟨n', r'⟩ <;> rw [hsplit] at h
      · simp at h
      · simp only [Option.some.injEq, Prod.mk.injEq] at h
        obtain ⟨h1, h2⟩ := h
        subst h2
        have := ih n' r' hsplit
        simp only [List.length_cons]
        omega

/-- The character scan of headers.go `expandEnvVars`: each closed
dollar-brace variable reference is replaced by the environment value of the
name between the braces (the replacement itself is not rescanned, matching
the advance past the substituted value in the source); a dollar-brace with no
later closing brace leaves the rest of the value untouched. -/
def expandEnvChars (env : Env) : List Char → List Char
  | [] => []
  | [c] => [c]
  | c :: c2 :: rest2 =>
    if c == '$' && c2 == lbrace then
      match hsp : splitAtClose rest2 with
      | none => c :: c2 :: rest2
      | some (name, rest') => (getenv env ⟨name⟩).data ++ expandEnvChars env rest'
    else c :: expandEnvChars env (c2 :: rest2)
termination_by l => l.length
decreasing_by
  · simp only [List.length_cons]
    have := splitAtClose_length_le rest2 name rest' hsp
    omega
  · simp only [List.length_cons]
    omega

/-- headers.go `expandEnvVars`. -/
def expandEnvVars (env : Env) (value : String) : String :=
  ⟨expandEnvChars env value.data⟩

/-- True when no dollar-brace marker starts anywhere inside the list; used to
position the first variable reference in statements about `expandEnvChars`. -/
def noRef : List Char → Bool
  | [] => true
  | [_] => true
  | c :: c2 :: rest => !(c == '$' && c2 == lbrace) && noRef (c2 :: rest)

/-- headers.go `HeaderManipulator.processHeaders`: copy, strip by patterns,
replace, then add with environment expansion. The replace and add Go maps are
modelled as association lists iterated in order (Go map iteration order is
unspecified; for maps whose keys canonicalise injectively the outcome is
order-independent). The debug logging and counters of the source carry no
header state and are dropped. -/
def processHeaders (inHeader : Header) (stripPatterns : List String)
    (replaceHeaders addHeaders : List (String × String)) (env : Env) : Header :=
  let outHeader := inHeader
  let outHeader := stripHeaders outHeader stripPatterns
  let outHeader := replaceHeaders.foldl (fun h kv => hSet h kv.1 kv.2) outHeader
  addHeaders.foldl (fun h kv => hSet h kv.1 (expandEnvVars env kv.2)) outHeader

/-- The value the last entry of an association list would leave under the
query key after a pass of http.Header.Set calls, entries transformed by `g`
(a specification-side helper for reasoning about the replace and add passes
of `processHeaders`). -/
def lastVal (l : List (String × String)) (g : String × String → String) (k : String) :
    Option String :=
  l.foldl (fun acc kv => if k == canonicalKey kv.1 then some (g kv) else acc) none

/-- logger.go (configuration part) `HeaderConfig`. -/
structure HeaderConfig where
  stripIncoming : List String := []
  stripOutgoing : List String := []
  addUpstream : List (String × String) := []
  addDownstream : List (String × String) := []
  replaceIncoming : List (String × String) := []
  replaceOutgoing : List (String × String) := []
deriving DecidableEq, Repr

/-- headers.go `HeaderManipulator.ProcessIncoming`. -/
def ProcessIncoming (hc : HeaderConfig) (env : Env) (inHeader : Header) : Header :=
  processHeaders inHeader hc.stripIncoming hc.replaceIncoming hc.addUpstream env

/-- headers.go `HeaderManipulator.ProcessOutgoing`. -/
def ProcessOutgoing (hc : HeaderConfig) (env : Env) (inHeader : Header) : Header :=
  processHeaders inHeader hc.stripOutgoing hc.replaceOutgoing hc.addDownstream env

/-- A parsed URL as net/url exposes it to this code: Scheme, Host (the
authority, port included), Path, RawQuery and Fragment. IsAbs is true exactly
when the scheme is nonempty, so a network-path reference (a location starting
with two slashes) parses with an empty scheme and a nonempty host and is not
absolute. -/
structure URL where
  scheme : String
  host : String
  path : String
  query : String
  fragment : String
deriving DecidableEq, Repr

/-- net/url `URL.IsAbs`. -/
def URL.isAbs (u : URL) : Bool := !(u.scheme == "")

/-- logger.go (configuration part) `RouteConfig`. The upstream and the
optional redirect base URL are stored pre-parsed (route.go `NewRoute` and
headers.go `buildProxyURL` parse them with net/url; a parse failure of the
redirect base keeps the incoming scheme and host, modelled by `none`). Fields
the request path never reads (timeouts, TLS mode) are omitted. -/
structure RouteConfig where
  name : String := ""
  pathPrefix : String
  upstream : URL
  upstreamPathPrefix : String := ""
  preserveHost : Bool := false
  headers : HeaderConfig := {}
  rewriteRedirects : Bool := false
  redirectBase : Option (String × String) := none
deriving DecidableEq, Repr

/-- The request as the director sees it: the client headers, the URL path and
the Host header (the URL scheme and host are overwritten by the director and
carried in `UpstreamRequest`). -/
structure Request where
  headers : Header
  urlPath : String
  host : String
deriving DecidableEq, Repr

/-- The outbound request built for the upstream. -/
structure UpstreamRequest where
  headers : Header
  urlScheme : String
  urlHost : String
  urlPath : String
  host : String
deriving DecidableEq, Repr

/-- route.go `Route.shouldStripHeader`. -/
def shouldStripHeader (r : RouteConfig) (headerName : String) : Bool :=
  r.headers.stripIncoming.any (fun pattern => matchesPattern headerName pattern)

/-- route.go `removeHopByHopHeaders`, fixed list: the RFC 2616 hop-by-hop
header names deleted first. -/
def hopByHopHeaders : List String :=
  ["Connection", "Keep-Alive", "Proxy-Authenticate", "Proxy-Authorization",
   "Te", "Trailers", "Transfer-Encoding", "Upgrade"]

/-- route.go `removeHopByHopHeaders`: deletes the fixed hop-by-hop set, then
reads the Connection value — which the preceding loop has already deleted —
and deletes the headers it names. -/
def removeHopByHopHeaders (header : Header) : Header :=
  let header := hopByHopHeaders.foldl hDel header
  let connections := hGet header "Connection"
  if !(connections == "") then
    (goSplitComma connections).foldl (fun h c => hDel h (goTrimSpace c)) header
  else header

/-- The upstream path computed by route.go `Route.director` (lines 93-103):
with a nonempty upstreamPathPrefix, the matched pathPrefix is trimmed, the
upstreamPathPrefix is prepended, and one leading slash is dropped when the
result starts with two; otherwise the request path is kept. -/
def directorPath (r : RouteConfig) (reqPath : String) : String :=
  if !(r.upstreamPathPrefix == "") then
    let path := goTrimPrefix reqPath r.pathPrefix
    let newPath := r.upstreamPathPrefix ++ path
    if goHasPrefix newPath "//" then strDrop newPath 1 else newPath
  else reqPath

/-- route.go `Route.director`. -/
def director (r : RouteConfig) (env : Env) (req : Request) : UpstreamRequest :=
  let headers := ProcessIncoming r.headers env req.headers
  let urlPath := directorPath r req.urlPath
  let host := if !r.preserveHost then r.upstream.host else req.host
  let headers := removeHopByHopHeaders headers
  let headers :=
    if shouldStripHeader r "X-Forwarded-For" then hDel headers "X-Forwarded-For"
    else headers
  { headers := headers, urlScheme := r.upstream.scheme, urlHost := r.upstream.host,
    urlPath := urlPath, host := host }

/-- net/http/httputil fixed hop-by-hop list (its `hopHeaders` variable). -/
def goHopHeaders : List String :=
  ["Connection", "Proxy-Connection", "Keep-Alive", "Proxy-Authenticate",
   "Proxy-Authorization", "Te", "Trailer", "Transfer-Encoding", "Upgrade"]

/-- net/http/httputil `removeHopByHopHeaders`, run by ReverseProxy after the
Director returns: unlike the repository's copy it reads the Connection-named
headers before deleting anything. -/
def goRemoveHopByHopHeaders (h : Header) : Header :=
  let connNames :=
    (((hLookup h "Connection").getD []).foldl
        (fun acc f => acc ++ (goSplitComma f).map goTrimSpace) []).filter
      (fun sf => !(sf == ""))
  let h := connNames.foldl hDel h
  goHopHeaders.foldl hDel h

/-- The X-Forwarded-For step of net/http/httputil `ReverseProxy.ServeHTTP`,
run after the Director and the hop-by-hop removal: the client IP is appended
to any prior values and the joined value is set; only a key explicitly
present with no values suppresses the header. -/
def frameworkXFF (clientIP : String) (h : Header) : Header :=
  match hLookup h "X-Forwarded-For" with
  | some [] => h
  | some prior => hSet h "X-Forwarded-For" (joinCommaSpace prior ++ ", " ++ clientIP)
  | none => hSet h "X-Forwarded-For" clientIP

/-- route.go `headerStrippingTransport.RoundTrip`, header pass: for each strip
pattern, only when the pattern is the literal X-Forwarded-star string does it
delete the keys matching that pattern; every other pattern is skipped here. -/
def headerStrippingRoundTrip (r : RouteConfig) (h : Header) : Header :=
  r.headers.stripIncoming.foldl
    (fun h pattern =>
      if pattern == "X-Forwarded-*" then
        (h.map (fun e => e.1)).foldl
          (fun h key => if matchesPattern key pattern then hDel h key else h) h
      else h) h

/-- The header pipeline of one proxied request, as wired by route.go
`NewRoute`: the route's Director, then the ReverseProxy framework steps
(hop-by-hop removal and X-Forwarded-For injection), then the wrapped
transport's RoundTrip pass, producing the headers sent to the upstream. -/
def upstreamRequestHeaders (r : RouteConfig) (env : Env) (clientIP : String)
    (req : Request) : Header :=
  let d := director r env req
  let h := goRemoveHopByHopHeaders d.headers
  let h := frameworkXFF clientIP h
  headerStrippingRoundTrip r h

/-- headers.go `buildProxyURL`, base resolution: the redirect base URL of the
route when configured and parsable, otherwise the incoming scheme and host. -/
def resolveBase (scheme host : String) (route : RouteConfig) : String × String :=
  match route.redirectBase with
  | some sh => sh
  | none => (scheme, host)

/-- headers.go `buildProxyURL`, path normalisation: a configured
upstreamPathPrefix is trimmed from the front of the path, and a nonempty path
is given a leading slash. -/
def normPath (route : RouteConfig) (path : String) : String :=
  let path :=
    if !(route.upstreamPathPrefix == "") then goTrimPrefix path route.upstreamPathPrefix
    else path
  if !(path == "") && !(goHasPrefix path "/") then "/" ++ path else path

/-- headers.go `buildProxyURL`, the join of the scheme-host-pathPrefix base
with the normalised path: one slash is dropped when both sides contribute
one, and one is inserted when neither does. -/
def joinURL (proxyURL path : String) : String :=
  if goHasSuffix proxyURL "/" && goHasPrefix path "/" then proxyURL ++ strDrop path 1
  else if !(goHasSuffix proxyURL "/") && !(goHasPrefix path "/") then proxyURL ++ "/" ++ path
  else proxyURL ++ path

/-- The scheme-host-pathPrefix base of headers.go `buildProxyURL`: the
resolved base with an empty scheme defaulted to https, followed by the
route's pathPrefix. -/
def baseOf (scheme host : String) (route : RouteConfig) : String :=
  let sh := resolveBase scheme host route
  let s := if sh.1 == "" then "https" else sh.1
  s ++ "://" ++ sh.2 ++ route.pathPrefix

/-- headers.go `buildProxyURL`. -/
def buildProxyURL (scheme host : String) (route : RouteConfig)
    (path query fragment : String) : String :=
  let proxyURL := joinURL (baseOf scheme host route) (normPath route path)
  let proxyURL := if !(query == "") then proxyURL ++ "?" ++ query else proxyURL
  if !(fragment == "") then proxyURL ++ "#" ++ fragment else proxyURL

/-- headers.go `RewriteRedirect`, over the parsed Location: net/url.Parse is
modelled by passing both the raw Location string and its parse, and route
upstreams are stored pre-parsed, so the invalid-url and invalid-upstream
returns of the source are not reachable in the model. Host comparison is
string equality of the parsed authorities, port included. -/
def RewriteRedirect (location : String) (locationURL : URL)
    (incomingHost incomingScheme : String)
    (routes : List RouteConfig) (currentRoute : RouteConfig) :
    String × Bool × String :=
  if !locationURL.isAbs then (location, false, "relative")
  else if locationURL.host == currentRoute.upstream.host then
    (buildProxyURL incomingScheme incomingHost currentRoute
        locationURL.path locationURL.query locationURL.fragment,
      true, "internal")
  else
    match routes.find? (fun route => locationURL.host == route.upstream.host) with
    | some route =>
      (buildProxyURL incomingScheme incomingHost route
          locationURL.path locationURL.query locationURL.fragment,
        true, "external_known")
    | none => (location, false, "external_unknown")

/-- headers.go `isRedirect`. -/
def isRedirect (statusCode : Nat) : Bool :=
  statusCode == 301 || statusCode == 302 || statusCode == 303 ||
    statusCode == 307 || statusCode == 308

/-- The observable actions on the response side of one request, in the order
they happen. -/
inductive RespEvent where
  | rewroteLocation
  | appliedOutgoing
  | wroteHeader (statusCode : Nat)
  | wroteBody
deriving DecidableEq, Repr

/-- The state of the (wrapped) http.ResponseWriter of one request: whether the
header block went out, the response headers, and the trace of actions. -/
structure RespWriter where
  wroteHeader : Bool
  headers : Header
  events : List RespEvent
deriving DecidableEq, Repr

/-- headers.go `redirectRewritingResponseWriter.handleRedirectRewrite`:
reads Location, attempts the rewrite, and sets the rewritten value when the
rewrite succeeded. `parse` stands for net/url.Parse. -/
def handleRedirectRewrite (cur : RouteConfig) (routes : List RouteConfig)
    (incomingHost incomingScheme : String) (parse : String → URL)
    (w : RespWriter) : RespWriter :=
  let location := hGet w.headers "Location"
  if location == "" then w
  else
    let res := RewriteRedirect location (parse location) incomingHost incomingScheme
      routes cur
    if res.2.1 then
      { w with headers := hSet w.headers "Location" res.1,
               events := w.events ++ [RespEvent.rewroteLocation] }
    else w

/-- headers.go `redirectRewritingResponseWriter.applyHeaderManipulations`:
clears the response headers and reinstalls the ProcessOutgoing result. -/
def applyHeaderManipulations (cur : RouteConfig) (env : Env) (w : RespWriter) :
    RespWriter :=
  { w with headers := ProcessOutgoing cur.headers env w.headers,
           events := w.events ++ [RespEvent.appliedOutgoing] }

/-- headers.go `redirectRewritingResponseWriter.WriteHeader`: on the first
call only, rewrite the redirect when the status is one, apply the outgoing
header manipulations, then write the header block. -/
def rrwWriteHeader (cur : RouteConfig) (routes : List RouteConfig)
    (incomingHost incomingScheme : String) (parse : String → URL) (env : Env)
    (w : RespWriter) (statusCode : Nat) : RespWriter :=
  if w.wroteHeader then w
  else
    let w := { w with wroteHeader := true }
    let w :=
      if isRedirect statusCode then
        handleRedirectRewrite cur routes incomingHost incomingScheme parse w
      else w
    let w := applyHeaderManipulations cur env w
    { w with events := w.events ++ [RespEvent.wroteHeader statusCode] }

/-- headers.go `redirectRewritingResponseWriter.Write`: an implicit 200 header
write when none happened yet, then the body bytes. -/
def rrwWrite (cur : RouteConfig) (routes : List RouteConfig)
    (incomingHost incomingScheme : String) (parse : String → URL) (env : Env)
    (w : RespWriter) : RespWriter :=
  let w :=
    if !w.wroteHeader then
      rrwWriteHeader cur routes incomingHost incomingScheme parse env w 200
    else w
  { w with events := w.events ++ [RespEvent.wroteBody] }

/-- headers.go `statusCapturingResponseWriter.WriteHeader` over the raw
writer — the response path taken when the route does not opt into redirect
rewriting: no header manipulation of any kind. -/
def plainWriteHeader (w : RespWriter) (statusCode : Nat) : RespWriter :=
  { w with wroteHeader := true, events := w.events ++ [RespEvent.wroteHeader statusCode] }

/-- headers.go `statusCapturingResponseWriter.Write` over the raw writer. -/
def plainWrite (w : RespWriter) : RespWriter :=
  let w := if !w.wroteHeader then plainWriteHeader w 200 else w
  { w with events := w.events ++ [RespEvent.wroteBody] }

/-- The response side of headers.go `Proxy.ServeHTTP`: the redirect-rewriting
writer is installed only when the route opts into rewriteRedirects; the
ReverseProxy copies the upstream response headers into the writer, calls
WriteHeader with the upstream status, and then streams the body. -/
def serveResponse (cur : RouteConfig) (routes : List RouteConfig)
    (incomingHost incomingScheme : String) (parse : String → URL) (env : Env)
    (statusCode : Nat) (upstreamHeaders : Header) (hasBody : Bool) : RespWriter :=
  let w : RespWriter := { wroteHeader := false, headers := upstreamHeaders, events := [] }
  if cur.rewriteRedirects then
    let w := rrwWriteHeader cur routes incomingHost incomingScheme parse env w statusCode
    if hasBody then rrwWrite cur routes incomingHost incomingScheme parse env w else w
  else
    let w := plainWriteHeader w statusCode
    if hasBody then plainWrite w else w

/-- headers.go `sortRoutesByPrefixLength`: sort.Slice ordering the longer
pathPrefix first, modelled as an insertion sort for the matching non-strict
order. (Go's sort is unstable, but any length-descending order serves each
request identically: two distinct prefixes of equal length cannot both start
one path.) -/
def sortRoutesByPrefixLength (routes : List RouteConfig) : List RouteConfig :=
  routes.insertionSort (fun a b => b.pathPrefix.length ≤ a.pathPrefix.length)

/-- route.go `Route.Match`: a plain string-prefix test of the request path
against the route's pathPrefix. -/
def routeMatch (r : RouteConfig) (path : String) : Bool :=
  goHasPrefix path r.pathPrefix

/-- headers.go `Proxy.ServeHTTP` route selection: the first match scanning the
sorted route list. -/
def findRoute (routes : List RouteConfig) (path : String) : Option RouteConfig :=
  (sortRoutesByPrefixLength routes).find? (fun route => routeMatch route path)

/-- headers.go `Proxy.ServeHTTP` status surface: 404 when no route matches the
request path, otherwise the status the proxied response produced. -/
def serveStatus (routes : List RouteConfig) (path : String) (proxiedStatus : Nat) : Nat :=
  match findRoute routes path with
  | some _ => proxiedStatus
  | none => 404

/-- The upstream failures the spec's error taxonomy distinguishes. -/
inductive UpstreamErrorKind where
  | dialTimeout
  | tlsHandshakeTimeout
  | responseHeaderTimeout
  | routeTimeout
  | connectFailure
  | tlsFailure
deriving DecidableEq, Repr

/-- What route.go `NewRoute` installs on the httputil.ReverseProxy it builds. -/
structure ReverseProxyModel where
  hasDirector : Bool
  hasTransport : Bool
  errorStatus : Option (UpstreamErrorKind → Nat)

/-- route.go `NewRoute` (lines 41-47): the ReverseProxy gets a Director and a
Transport and nothing else — no ErrorHandler is installed anywhere in the
repository, and the per-route Timeout configuration field is read nowhere on
the request path. -/
def newRouteReverseProxy : ReverseProxyModel :=
  { hasDirector := true, hasTransport := true, errorStatus := none }

/-- net/http/httputil: when no ErrorHandler is installed, ReverseProxy's
defaultErrorHandler answers every transport error — timeouts included — with
502 Bad Gateway. -/
def transportErrorStatus (p : ReverseProxyModel) (e : UpstreamErrorKind) : Nat :=
  match p.errorStatus with
  | some f => f e
  | none => 502

instance : IsTotal RouteConfig (fun a b => b.pathPrefix.length ≤ a.pathPrefix.length) :=
  ⟨fun _ _ => Nat.le_total _ _⟩

instance : IsTrans RouteConfig (fun a b => b.pathPrefix.length ≤ a.pathPrefix.length) :=
  ⟨fun _ _ _ hab hbc => Nat.le_trans hbc hab⟩

/-! ### Concrete configurations exercised by the theorems below -/

/-- A route stripping the exact header name X-Forwarded-For (no wildcard). -/
def routeStripXFF : RouteConfig :=
  { pathPrefix := "/api"
    upstream := ⟨"https", "up.example", "", "", ""⟩
    headers := { stripIncoming := ["X-Forwarded-For"] } }

/-- A route with no header rules at all. -/
def routePlain : RouteConfig :=
  { pathPrefix := "/"
    upstream := ⟨"https", "up.example", "", "", ""⟩ }

/-- A route with an outgoing strip rule and redirect rewriting off. -/
def routeStripServer : RouteConfig :=
  { pathPrefix := "/api"
    upstream := ⟨"https", "up.example", "", "", ""⟩
    headers := { stripOutgoing := ["Server"] } }

/-- A route whose upstreamPathPrefix is a bare slash. -/
def routeSlashRewrite : RouteConfig :=
  { pathPrefix := "/api"
    upstream := ⟨"https", "up.example", "", "", ""⟩
    upstreamPathPrefix := "/" }

/-- A short-prefix route (seed test 5 of the spec). -/
def routeApi : RouteConfig :=
  { pathPrefix := "/api", upstream := ⟨"https", "u1.example", "", "", ""⟩ }

/-- A longer-prefix route under the same tree. -/
def routeApiV2 : RouteConfig :=
  { pathPrefix := "/api/v2", upstream := ⟨"https", "u2.example", "", "", ""⟩ }

/-- The external OAuth route of the spec's redirect scenario. -/
def routeOAuth : RouteConfig :=
  { pathPrefix := "/external-oauth"
    upstream := ⟨"https", "external-oauth-provider.com", "", "", ""⟩ }

/-! ### General lemmas about the string and header primitives -/

theorem listHasPref_nil (x : List Char) : listHasPref x [] = true := by
  cases x <;> rfl

theorem listHasPref_append_self (a b : List Char) : listHasPref (a ++ b) a = true := by
  induction a with
  | nil => exact listHasPref_nil b
  | cons c t ih => simpa [listHasPref] using ih

theorem listHasPref_mono :
    ∀ (a x y : List Char), listHasPref x a = true → listHasPref (x ++ y) a = true := by
  intro a
  induction a with
  | nil => intro x y _; exact listHasPref_nil (x ++ y)
  | cons p ps ih =>
    intro x y h
    cases x with
    | nil => simp [listHasPref] at h
    | cons c t =>
      simp only [listHasPref, Bool.and_eq_true] at h ⊢
      exact ⟨h.1, ih t y h.2⟩

theorem listHasPref_length_le :
    ∀ (s p : List Char), listHasPref s p = true → p.length ≤ s.length := by
  intro s
  induction s with
  | nil =>
    intro p h
    cases p with
    | nil => simp
    | cons pc pt => simp [listHasPref] at h
  | cons c t ih =>
    intro p h
    cases p with
    | nil => simp
    | cons pc pt =>
      simp only [listHasPref, Bool.and_eq_true] at h
      have := ih pt h.2
      simp only [List.length_cons]
      omega

theorem listHasPref_eq_of_length :
    ∀ (s p : List Char), listHasPref s p = true → p.length = s.length → p = s := by
  intro s
  induction s with
  | nil =>
    intro p h _
    cases p with
    | nil => rfl
    | cons pc pt => simp [listHasPref] at h
  | cons c t ih =>
    intro p h hl
    cases p with
    | nil => simp at hl
    | cons pc pt =>
      simp only [listHasPref, Bool.and_eq_true, beq_iff_eq] at h
      simp only [List.length_cons] at hl
      have := ih pt h.2 (by omega)
      rw [h.1, this]

theorem hLookup_append (h1 h2 : Header) (k : String) :
    hLookup (h1 ++ h2) k =
      match hLookup h1 k with
      | some v => some v
      | none => hLookup h2 k := by
  induction h1 with
  | nil => rfl
  | cons e t ih =>
    by_cases he : (e.1 == k) = true
    · simp [hLookup, he]
    · simp [hLookup, he, ih]

theorem hLookup_filterKey (q : String → Bool) :
    ∀ (h : Header) (k : String),
      hLookup (h.filter (fun e => q e.1)) k = if q k then hLookup h k else none := by
  intro h
  induction h with
  | nil => intro k; simp [hLookup]
  | cons e t ih =>
    intro k
    rw [List.filter_cons]
    by_cases hq : q e.1 = true
    · rw [if_pos (by simpa using hq)]
      by_cases hek : (e.1 == k) = true
      · have hqk : q k = true := by
          rw [beq_iff_eq] at hek
          rw [← hek]; exact hq
        simp [hLookup, hek, hqk]
      · simp [hLookup, hek, ih]
    · rw [if_neg (by simpa using hq)]
      by_cases hek : (e.1 == k) = true
      · have hqk : q k = false := by
          rw [beq_iff_eq] at hek
          rw [← hek]; simpa using hq
        simp [hLookup, hek, hqk, ih]
      · simp [hLookup, hek, ih]

theorem hLookup_hDel (h : Header) (k k' : String) :
    hLookup (hDel h k) k' =
      if (k' == canonicalKey k) = true then none else hLookup h k' := by
  have h1 := hLookup_filterKey (fun x => !(x == canonicalKey k)) h k'
  by_cases hk : (k' == canonicalKey k) = true
  · simp only [hk, Bool.not_true, if_false] at h1
    simpa [hk] using h1
  · simp only [Bool.not_eq_true] at hk
    simp [hk] at h1 ⊢
    exact h1

theorem hLookup_hSet (h : Header) (k v k' : String) :
    hLookup (hSet h k v) k' =
      if (k' == canonicalKey k) = true then some [v] else hLookup h k' := by
  unfold hSet
  rw [hLookup_append, hLookup_hDel]
  by_cases hk : k' = canonicalKey k
  · simp [hk, hLookup]
  · have hk2 : ¬ canonicalKey k = k' := fun hcon => hk hcon.symm
    cases hres : hLookup h k' <;> simp [hk, hk2, hLookup, hres]

theorem hLookup_stripHeaders (h : Header) (pats : List String) (k : String) :
    hLookup (stripHeaders h pats) k =
      if pats.any (fun p => matchesPattern k p) then none else hLookup h k := by
  have h1 := hLookup_filterKey (fun x => !(pats.any (fun p => matchesPattern x p))) h k
  by_cases hb : pats.any (fun p => matchesPattern k p) = true
  · simp only [hb, Bool.not_true, if_false] at h1
    simpa [hb] using h1
  · simp only [Bool.not_eq_true] at hb
    simp [hb] at h1 ⊢
    exact h1

theorem lastVal_from (g : String × String → String) :
    ∀ (t : List (String × String)) (a : Option String) (k : String),
      t.foldl (fun acc kv => if k == canonicalKey kv.1 then some (g kv) else acc) a =
        match lastVal t g k with
        | some v => some v
        | none => a := by
  intro t
  induction t with
  | nil => intro a k; rfl
  | cons kv t ih =>
    intro a k
    have hstart : lastVal (kv :: t) g k =
        t.foldl (fun acc kv => if k == canonicalKey kv.1 then some (g kv) else acc)
          (if k == canonicalKey kv.1 then some (g kv) else none) := rfl
    rw [List.foldl_cons, ih, hstart, ih]
    cases lastVal t g k
    · by_cases hk : k = canonicalKey kv.1 <;> simp [hk]
    · simp

theorem lastVal_cons (g : String × String → String) (kv : String × String)
    (t : List (String × String)) (k : String) :
    lastVal (kv :: t) g k =
      match lastVal t g k with
      | some v => some v
      | none => if k == canonicalKey kv.1 then some (g kv) else none := by
  have hstart : lastVal (kv :: t) g k =
      t.foldl (fun acc kv => if k == canonicalKey kv.1 then some (g kv) else acc)
        (if k == canonicalKey kv.1 then some (g kv) else none) := rfl
  rw [hstart, lastVal_from]

theorem hLookup_foldl_hSet (g : String × String → String) :
    ∀ (l : List (String × String)) (h0 : Header) (k : String),
      hLookup (l.foldl (fun h kv => hSet h kv.1 (g kv)) h0) k =
        match lastVal l g k with
        | some v => some [v]
        | none => hLookup h0 k := by
  intro l
  induction l with
  | nil => intro h0 k; rfl
  | cons kv t ih =>
    intro h0 k
    rw [List.foldl_cons, ih, lastVal_cons, hLookup_hSet]
    cases lastVal t g k
    · by_cases hk : k = canonicalKey kv.1 <;> simp [hk]
    · simp

/-- Pointwise characterisation of one `processHeaders` pass: the add pass
wins, then the replace pass, and otherwise a key survives from the input
exactly when it matches no strip pattern. -/
theorem processHeaders_hLookup (h : Header) (s : List String)
    (r a : List (String × String)) (env : Env) (k : String) :
    hLookup (processHeaders h s r a env) k =
      match lastVal a (fun kv => expandEnvVars env kv.2) k with
      | some v => some [v]
      | none =>
        match lastVal r (fun kv => kv.2) k with
        | some v => some [v]
        | none =>
          if s.any (fun p => matchesPattern k p) then none else hLookup h k := by
  have hAdd :=
    hLookup_foldl_hSet (fun kv => expandEnvVars env kv.2) a
      (r.foldl (fun h kv => hSet h kv.1 kv.2) (stripHeaders h s)) k
  have hRep := hLookup_foldl_hSet (fun kv => kv.2) r (stripHeaders h s) k
  have hStrip := hLookup_stripHeaders h s k
  have hgoal : hLookup (processHeaders h s r a env) k =
      match lastVal a (fun kv => expandEnvVars env kv.2) k with
      | some v => some [v]
      | none =>
        hLookup (r.foldl (fun h kv => hSet h kv.1 kv.2) (stripHeaders h s)) k := hAdd
  rw [hgoal]
  cases lastVal a (fun kv => expandEnvVars env kv.2) k
  · have hRep2 : hLookup (r.foldl (fun h kv => hSet h kv.1 kv.2) (stripHeaders h s)) k =
        match lastVal r (fun kv => kv.2) k with
        | some v => some [v]
        | none => hLookup (stripHeaders h s) k := hRep
    rw [hRep2, hStrip]
  · rfl

/-- C7: for a fixed environment and fixed direction rules, the incoming header
transform (copy, strip, replace, add — headers.go processHeaders as invoked by
ProcessIncoming) is idempotent pointwise on the resulting Go header map: a
header set by the replace or add pass that matches a strip pattern is stripped
and recreated identically on the second application. -/
theorem c7_processIncoming_idempotent (hc : HeaderConfig) (env : Env) (h : Header)
    (k : String) :
    hLookup (ProcessIncoming hc env (ProcessIncoming hc env h)) k
      = hLookup (ProcessIncoming hc env h) k := by
  unfold ProcessIncoming
  rw [processHeaders_hLookup, processHeaders_hLookup]
  cases lastVal hc.addUpstream (fun kv => expandEnvVars env kv.2) k
  · cases lastVal hc.replaceIncoming (fun kv => kv.2) k
    · by_cases hs : hc.stripIncoming.any (fun p => matchesPattern k p) = true <;> simp [hs]
    · rfl
  · rfl

/-! ### Environment expansion (headers.go expandEnvVars) -/

theorem splitAtClose_closed :
    ∀ (name rest : List Char), rbrace ∉ name →
      splitAtClose (name ++ rbrace :: rest) = some (name, rest) := by
  intro name
  induction name with
  | nil =>
    intro rest _
    simp [splitAtClose]
  | cons c t ih =>
    intro rest h
    have hc : ¬ c = rbrace := fun hcon => h (hcon ▸ List.mem_cons_self c t)
    have ht : rbrace ∉ t := fun hmem => h (List.mem_cons_of_mem c hmem)
    simp only [List.cons_append, splitAtClose, List.append_eq]
    rw [if_neg (by simpa using hc), ih rest ht]

theorem splitAtClose_none :
    ∀ (l : List Char), rbrace ∉ l → splitAtClose l = none := by
  intro l
  induction l with
  | nil => intro _; rfl
  | cons c t ih =>
    intro h
    have hc : ¬ c = rbrace := fun hcon => h (hcon ▸ List.mem_cons_self c t)
    have ht : rbrace ∉ t := fun hmem => h (List.mem_cons_of_mem c hmem)
    simp only [splitAtClose]
    rw [if_neg (by simpa using hc), ih ht]

theorem expandEnvChars_closed (env : Env) (name rest : List Char)
    (hn : rbrace ∉ name) :
    expandEnvChars env ('$' :: lbrace :: (name ++ rbrace :: rest)) =
      (getenv env ⟨name⟩).data ++ expandEnvChars env rest := by
  have hsp := splitAtClose_closed name rest hn
  simp only [expandEnvChars]
  rw [if_pos (by decide)]
  split
  · rename_i heq
    rw [hsp] at heq
    cases heq
  · rename_i name1 rest1 heq
    rw [hsp] at heq
    injection heq with heq2
    injection heq2 with ha hb
    rw [ha, hb]

theorem expandEnvChars_unclosed (env : Env) (tail : List Char)
    (hn : rbrace ∉ tail) :
    expandEnvChars env ('$' :: lbrace :: tail) = '$' :: lbrace :: tail := by
  have hsp := splitAtClose_none tail hn
  simp only [expandEnvChars]
  rw [if_pos (by decide)]
  split
  · rfl
  · rename_i name1 rest1 heq
    rw [hsp] at heq
    cases heq

theorem expandEnvChars_append_noRef (env : Env) :
    ∀ (pre l : List Char), noRef pre = true →
      expandEnvChars env (pre ++ '$' :: l) = pre ++ expandEnvChars env ('$' :: l) := by
  intro pre
  induction pre with
  | nil => intro l _; rfl
  | cons c t ih =>
    intro l hpre
    cases t with
    | nil =>
      have hfalse : (c == '$' && '$' == lbrace) = false := by
        have : ('$' == lbrace) = false := by decide
        simp [this]
      simp [expandEnvChars, hfalse]
    | cons c2 t2 =>
      have hsplit : ((!(c == '$' && c2 == lbrace)) && noRef (c2 :: t2)) = true := hpre
      rw [Bool.and_eq_true] at hsplit
      have hmark : (c == '$' && c2 == lbrace) = false := by
        cases hb : (c == '$' && c2 == lbrace)
        · rfl
        · rw [hb] at hsplit
          simp at hsplit
      have hrest : noRef (c2 :: t2) = true := hsplit.2
      have step : expandEnvChars env ((c :: c2 :: t2) ++ '$' :: l) =
          c :: expandEnvChars env ((c2 :: t2) ++ '$' :: l) := by
        simp [expandEnvChars, hmark]
      rw [step, ih l hrest]
      rfl

/-- C8: headers.go expandEnvVars replaces each syntactically closed
dollar-brace variable reference by the environment value of the name (the
empty string when the variable is unset), and a dollar-brace with no
following closing brace is left untouched, together with everything after
it. `pre` is any earlier part of the value carrying no reference marker. -/
theorem c8_env_expansion (env : Env) (pre name rest tail : List Char)
    (hpre : noRef pre = true) (hname : rbrace ∉ name) (htail : rbrace ∉ tail) :
    expandEnvVars env ⟨pre ++ '$' :: lbrace :: (name ++ rbrace :: rest)⟩
        = ⟨pre ++ ((getenv env ⟨name⟩).data ++ expandEnvChars env rest)⟩
      ∧ (env.find? (fun e => e.1 == String.mk name) = none → getenv env ⟨name⟩ = "")
      ∧ expandEnvVars env ⟨pre ++ '$' :: lbrace :: tail⟩
          = ⟨pre ++ '$' :: lbrace :: tail⟩ := by
  refine ⟨?_, ?_, ?_⟩
  · show String.mk (expandEnvChars env (pre ++ '$' :: lbrace :: (name ++ rbrace :: rest)))
      = String.mk (pre ++ ((getenv env ⟨name⟩).data ++ expandEnvChars env rest))
    rw [expandEnvChars_append_noRef env pre (lbrace :: (name ++ rbrace :: rest)) hpre,
      expandEnvChars_closed env name rest hname]
  · intro hfind
    unfold getenv
    rw [hfind]
    rfl
  · show String.mk (expandEnvChars env (pre ++ '$' :: lbrace :: tail))
      = String.mk (pre ++ '$' :: lbrace :: tail)
    rw [expandEnvChars_append_noRef env pre (lbrace :: tail) hpre,
      expandEnvChars_unclosed env tail htail]

/-- Witness for C8 at a concrete value: with an empty environment, the value
a-dollar-brace-K-brace-b expands to ab (closed reference, unset variable,
empty substitution), and a-dollar-brace-K is left untouched (unclosed). -/
theorem c8_env_expansion_witness :
    expandEnvVars [] ⟨['a', '$', lbrace, 'K', rbrace, 'b']⟩ = "ab"
      ∧ getenv [] ⟨['K']⟩ = ""
      ∧ expandEnvVars [] ⟨['a', '$', lbrace, 'K']⟩ = ⟨['a', '$', lbrace, 'K']⟩ := by
  obtain ⟨h1, h2, h3⟩ :=
    c8_env_expansion [] ['a'] ['K'] ['b'] ['K'] (by decide) (by decide) (by decide)
  have e1 : expandEnvChars [] ['b'] = ['b'] := by simp [expandEnvChars]
  rw [e1] at h1
  exact ⟨h1.trans rfl, h2 rfl, h3⟩

/-! ### Path rewriting (route.go director) -/

theorem collapse_double_slash (l : List Char) :
    listHasPref (if listHasPref l ['/', '/'] then l.drop 1 else l) ['/', '/']
      = listHasPref l ['/', '/', '/'] := by
  rcases l with _ | ⟨a, _ | ⟨b, t⟩⟩
  · rfl
  · simp [listHasPref]
  · by_cases ha : (a == '/') = true <;> by_cases hb : (b == '/') = true <;>
      simp [listHasPref, ha, hb, listHasPref_nil]

theorem collapse_double_slash_str (l : String) :
    goHasPrefix (if goHasPrefix l "//" then strDrop l 1 else l) "//"
      = goHasPrefix l "///" := by
  have e3 : ∀ s : String, goHasPrefix s "//" = listHasPref s.data ['/', '/'] :=
    fun _ => rfl
  have e2 : goHasPrefix l "///" = listHasPref l.data ['/', '/', '/'] := rfl
  rw [e2, ← collapse_double_slash l.data]
  simp only [e3]
  congr 1
  cases hc : listHasPref l.data ['/', '/']
  · simp [hc]
  · simp [hc, strDrop]

/-- C9 counterexample: pathPrefix /api with upstreamPathPrefix a bare slash —
both accepted by validation — rewrite the request path /api//health to a path
that still begins with a double slash: the source collapses exactly one
leading slash, not all of them. -/
theorem c9_double_slash_counterexample :
    directorPath routeSlashRewrite "/api//health" = "//health"
      ∧ goHasPrefix (directorPath routeSlashRewrite "/api//health") "//" = true := by
  constructor
  · rfl
  · rfl

/-- C9 amended: when upstreamPathPrefix is empty the request path is forwarded
unchanged; when it is nonempty, the rewrite collapses exactly one leading
slash, so the upstream path begins with a double slash exactly when
upstreamPathPrefix followed by the pathPrefix-trimmed request path begins
with three slashes. -/
theorem c9_path_rewrite (r : RouteConfig) (reqPath : String) :
    (r.upstreamPathPrefix = "" → directorPath r reqPath = reqPath)
      ∧ (r.upstreamPathPrefix ≠ "" →
          goHasPrefix (directorPath r reqPath) "//"
            = goHasPrefix
                (r.upstreamPathPrefix ++ goTrimPrefix reqPath r.pathPrefix) "///") := by
  constructor
  · intro h
    simp [directorPath, h]
  · intro h
    have hne : (r.upstreamPathPrefix == "") = false := by
      cases hb : r.upstreamPathPrefix == ""
      · rfl
      · exact absurd (by simpa using hb) h
    unfold directorPath
    rw [hne]
    simp only [Bool.not_false, if_true]
    exact collapse_double_slash_str
      (r.upstreamPathPrefix ++ goTrimPrefix reqPath r.pathPrefix)

/-- Witness for C9 amended at concrete inputs: an empty upstreamPathPrefix
forwards the path unchanged, and the bare-slash route applied to /api/health
produces a path whose double-slash test equals that of the three-slash test
of the concatenation (both false here). -/
theorem c9_path_rewrite_witness :
    directorPath routePlain "/x" = "/x"
      ∧ goHasPrefix (directorPath routeSlashRewrite "/api/health") "//"
          = goHasPrefix
              (routeSlashRewrite.upstreamPathPrefix
                ++ goTrimPrefix "/api/health" routeSlashRewrite.pathPrefix) "///" := by
  exact ⟨(c9_path_rewrite routePlain "/x").1 rfl,
    (c9_path_rewrite routeSlashRewrite "/api/health").2 (by decide)⟩

/-! ### The header pipeline bugs (C1, C2, C3) and the error surface (C4) -/

/-- C1 (code bug): with the strip pattern being the exact name
X-Forwarded-For, the director deletes the header, the ReverseProxy framework
re-injects it carrying the client IP, and the RoundTrip pass — which acts
only when a pattern is the literal X-Forwarded-star string — leaves it
alone: the request sent upstream carries a header matching a strip pattern. -/
theorem c1_strip_guarantee_fails :
    hGet (upstreamRequestHeaders routeStripXFF [] "203.0.113.9"
        { headers := [], urlPath := "/api/x", host := "proxy.example" })
      "X-Forwarded-For" = "203.0.113.9"
      ∧ (upstreamRequestHeaders routeStripXFF [] "203.0.113.9"
            { headers := [], urlPath := "/api/x", host := "proxy.example" }).any
          (fun e => shouldStripHeader routeStripXFF e.1) = true := by
  constructor
  · rfl
  · rfl

/-- C2 (code bug): on a route that does not opt into rewriteRedirects, the
outgoing header transform never runs — the response writer used is the plain
status-capturing one — so a configured stripOutgoing rule (here on Server)
has no effect on what the client receives, even though ProcessOutgoing would
have removed the header. -/
theorem c2_outgoing_transform_skipped :
    (serveResponse routeStripServer [routeStripServer] "proxy.example" "https"
        (fun _ => ⟨"", "", "", "", ""⟩) [] 200 [("Server", ["nginx"])] true).headers
      = [("Server", ["nginx"])]
      ∧ ((serveResponse routeStripServer [routeStripServer] "proxy.example" "https"
            (fun _ => ⟨"", "", "", "", ""⟩) [] 200 [("Server", ["nginx"])] true).events.contains
          RespEvent.appliedOutgoing) = false
      ∧ hLookup (ProcessOutgoing routeStripServer.headers [] [("Server", ["nginx"])])
          "Server" = none := by
  refine ⟨rfl, rfl, rfl⟩

/-- C3 (code bug): a request whose Connection header names X-Foo keeps X-Foo
all the way to the upstream. The repository's removeHopByHopHeaders deletes
Connection before reading it, and by the time the framework's own pass runs,
no Connection header is left to name anything; only Connection itself and the
fixed hop-by-hop set are gone. -/
theorem c3_connection_named_header_survives :
    hGet (upstreamRequestHeaders routePlain [] "203.0.113.9"
        { headers := [("Connection", ["X-Foo"]), ("X-Foo", ["bar"])],
          urlPath := "/x", host := "h" })
      "X-Foo" = "bar"
      ∧ hLookup (upstreamRequestHeaders routePlain [] "203.0.113.9"
          { headers := [("Connection", ["X-Foo"]), ("X-Foo", ["bar"])],
            urlPath := "/x", host := "h" })
        "Connection" = none := by
  constructor
  · rfl
  · rfl

/-- C4 (code bug): route.go installs no ErrorHandler on the ReverseProxy, so
every upstream transport failure — a timeout at any phase included — is
answered with 502 Bad Gateway by the framework default, never with 504. -/
theorem c4_timeout_answered_with_502 (e : UpstreamErrorKind) :
    transportErrorStatus newRouteReverseProxy e = 502
      ∧ transportErrorStatus newRouteReverseProxy
          UpstreamErrorKind.responseHeaderTimeout ≠ 504 := by
  exact ⟨rfl, by decide⟩

/-! ### Route matching (C5) -/

theorem strict_prefix_length_lt (a b : String)
    (hpref : goHasPrefix b a = true) (hne : a ≠ b) :
    a.length < b.length := by
  have hle : a.data.length ≤ b.data.length := listHasPref_length_le b.data a.data hpref
  rcases Nat.lt_or_ge a.data.length b.data.length with hlt | hge
  · exact hlt
  · exfalso
    have heq : a.data.length = b.data.length := Nat.le_antisymm hle hge
    have := listHasPref_eq_of_length b.data a.data hpref heq
    apply hne
    cases a
    cases b
    exact congrArg String.mk this

/-- C5: routing is longest-prefix. For two routes one of whose prefixes
strictly extends the other, every request path starting with the longer
prefix is served by the longer route, in either configuration order; in
general the chosen route is the first plain string-prefix match scanning the
routes sorted by pathPrefix length descending, and a request matching no
route is answered 404. -/
theorem c5_longest_prefix_match (ra rb : RouteConfig) (path : String)
    (hpref : goHasPrefix rb.pathPrefix ra.pathPrefix = true)
    (hne : ra.pathPrefix ≠ rb.pathPrefix)
    (hmatch : goHasPrefix path rb.pathPrefix = true) :
    findRoute [ra, rb] path = some rb
      ∧ findRoute [rb, ra] path = some rb
      ∧ (∀ (routes : List RouteConfig) (p : String),
          findRoute routes p
            = (sortRoutesByPrefixLength routes).find? (fun route => routeMatch route p))
      ∧ (∀ routes : List RouteConfig,
          List.Sorted (fun a b => b.pathPrefix.length ≤ a.pathPrefix.length)
            (sortRoutesByPrefixLength routes))
      ∧ (∀ (routes : List RouteConfig) (p : String) (u : Nat),
          findRoute routes p = none → serveStatus routes p u = 404) := by
  have hlt : ra.pathPrefix.length < rb.pathPrefix.length :=
    strict_prefix_length_lt ra.pathPrefix rb.pathPrefix hpref hne
  have hsorted1 : sortRoutesByPrefixLength [ra, rb] = [rb, ra] := by
    unfold sortRoutesByPrefixLength
    simp only [List.insertionSort, List.orderedInsert]
    rw [if_neg (by omega)]
  have hsorted2 : sortRoutesByPrefixLength [rb, ra] = [rb, ra] := by
    unfold sortRoutesByPrefixLength
    simp only [List.insertionSort, List.orderedInsert]
    rw [if_pos (by omega)]
  refine ⟨?_, ?_, ?_, ?_, ?_⟩
  · unfold findRoute
    rw [hsorted1]
    simp [routeMatch, hmatch]
  · unfold findRoute
    rw [hsorted2]
    simp [routeMatch, hmatch]
  · intro routes p
    rfl
  · intro routes
    exact List.sorted_insertionSort _ routes
  · intro routes p u hnone
    simp [serveStatus, hnone]

/-- Witness for C5 at the spec's seed scenario: routes /api and /api/v2; the
path /api/v2/test is served by the /api/v2 route whichever way the routes are
listed, and an unmatched path is answered 404. -/
theorem c5_longest_prefix_match_witness :
    findRoute [routeApi, routeApiV2] "/api/v2/test" = some routeApiV2
      ∧ findRoute [routeApiV2, routeApi] "/api/v2/test" = some routeApiV2
      ∧ serveStatus [routeApi, routeApiV2] "/nope" 200 = 404 := by
  have h := c5_longest_prefix_match routeApi routeApiV2 "/api/v2/test"
    (by decide) (by decide) (by decide)
  exact ⟨h.1, h.2.1, h.2.2.2.2 [routeApi, routeApiV2] "/nope" 200 (by decide)⟩

/-! ### Redirect rewriting (C6, C10) -/

theorem goHasPrefix_append_self (a b : String) : goHasPrefix (a ++ b) a = true := by
  unfold goHasPrefix
  rw [String.data_append]
  exact listHasPref_append_self a.data b.data

theorem goHasPrefix_mono (a x y : String) (h : goHasPrefix x a = true) :
    goHasPrefix (x ++ y) a = true := by
  unfold goHasPrefix at h ⊢
  rw [String.data_append]
  exact listHasPref_mono a.data x.data y.data h

theorem joinURL_hasPrefix (base p : String) :
    goHasPrefix (joinURL base p) base = true := by
  unfold joinURL
  split_ifs
  · exact goHasPrefix_append_self base (strDrop p 1)
  · exact goHasPrefix_mono base (base ++ "/") p (goHasPrefix_append_self base "/")
  · exact goHasPrefix_append_self base p

theorem buildProxyURL_hasPrefix (s h : String) (r : RouteConfig) (p q f : String) :
    goHasPrefix (buildProxyURL s h r p q f) (baseOf s h r) = true := by
  have h0 := joinURL_hasPrefix (baseOf s h r) (normPath r p)
  unfold buildProxyURL
  split_ifs
  · exact goHasPrefix_mono _ _ f
      (goHasPrefix_mono _ _ "#" (goHasPrefix_mono _ _ q (goHasPrefix_mono _ _ "?" h0)))
  · exact goHasPrefix_mono _ _ q (goHasPrefix_mono _ _ "?" h0)
  · exact goHasPrefix_mono _ _ f (goHasPrefix_mono _ _ "#" h0)
  · exact h0

theorem buildProxyURL_structure (s h : String) (r : RouteConfig) (p q f : String) :
    buildProxyURL s h r p q f
      = joinURL (baseOf s h r) (normPath r p)
          ++ (if !(q == "") then "?" ++ q else "")
          ++ (if !(f == "") then "#" ++ f else "") := by
  unfold buildProxyURL
  split_ifs <;> simp [String.append_assoc]

theorem drop_one_no_slash (l : List Char)
    (h1 : listHasPref l ['/'] = true) (h2 : listHasPref l ['/', '/'] = false) :
    listHasPref (l.drop 1) ['/'] = false := by
  rcases l with _ | ⟨c, t⟩
  · simp [listHasPref] at h1
  · simp only [listHasPref, Bool.and_eq_true] at h1 h2
    rcases t with _ | ⟨c2, t2⟩
    · simp [listHasPref]
    · simp only [List.drop_one, List.tail_cons]
      simp only [listHasPref, Bool.and_eq_true] at h2 ⊢
      cases hb : (c2 == '/')
      · simp [listHasPref, hb]
      · exfalso
        rw [h1.1, hb] at h2
        simp at h2

theorem joinURL_junction (base p : String) (hp : goHasPrefix p "//" = false) :
    ∃ tl, joinURL base p = base ++ tl
      ∧ (goHasSuffix base "/" = true → goHasPrefix tl "/" = false) := by
  unfold joinURL
  split_ifs with h1 h2
  · refine ⟨strDrop p 1, rfl, fun _ => ?_⟩
    rw [Bool.and_eq_true] at h1
    have hstart : listHasPref p.data ['/'] = true := h1.2
    have hdouble : listHasPref p.data ['/', '/'] = false := hp
    exact drop_one_no_slash p.data hstart hdouble
  · refine ⟨"/" ++ p, ?_, fun hsuf => ?_⟩
    · rw [String.append_assoc]
    · rw [Bool.and_eq_true] at h2
      exact absurd hsuf (by simpa using h2.1)
  · refine ⟨p, rfl, fun hsuf => ?_⟩
    rw [Bool.and_eq_true] at h1
    cases hstart : goHasPrefix p "/"
    · rfl
    · exact absurd ⟨hsuf, hstart⟩ h1

/-- C6: an absolute redirect Location whose authority equals the current
route's upstream authority is rewritten through the current route (internal),
and one equal to the first other matching route's upstream authority is
rewritten through that route (external known); the rewritten value always
begins with the resolved base followed by the route's pathPrefix, is exactly
the joined base and normalised path — the Location path with the route's
upstreamPathPrefix trimmed — with query and fragment appended when nonempty,
and the join introduces no double slash between the pathPrefix and the path. -/
theorem c6_rewritten_location (location : String) (locURL : URL)
    (incomingHost incomingScheme : String) (routes : List RouteConfig)
    (cur other : RouteConfig) (habs : locURL.isAbs = true) :
    (locURL.host = cur.upstream.host →
      RewriteRedirect location locURL incomingHost incomingScheme routes cur
        = (buildProxyURL incomingScheme incomingHost cur
            locURL.path locURL.query locURL.fragment, true, "internal"))
      ∧ (locURL.host ≠ cur.upstream.host →
          routes.find? (fun route => locURL.host == route.upstream.host) = some other →
          RewriteRedirect location locURL incomingHost incomingScheme routes cur
            = (buildProxyURL incomingScheme incomingHost other
                locURL.path locURL.query locURL.fragment, true, "external_known"))
      ∧ (∀ (s h : String) (r : RouteConfig) (p q f : String),
          goHasPrefix (buildProxyURL s h r p q f) (baseOf s h r) = true)
      ∧ (∀ (s h : String) (r : RouteConfig) (p q f : String),
          buildProxyURL s h r p q f
            = joinURL (baseOf s h r) (normPath r p)
                ++ (if !(q == "") then "?" ++ q else "")
                ++ (if !(f == "") then "#" ++ f else ""))
      ∧ (∀ (base p : String), goHasPrefix p "//" = false →
          ∃ tl, joinURL base p = base ++ tl
            ∧ (goHasSuffix base "/" = true → goHasPrefix tl "/" = false)) := by
  refine ⟨?_, ?_, buildProxyURL_hasPrefix, buildProxyURL_structure, joinURL_junction⟩
  · intro hhost
    simp [RewriteRedirect, habs, hhost]
  · intro hhost hfind
    have hhost2 : (locURL.host == cur.upstream.host) = false := by
      simpa using hhost
    simp [RewriteRedirect, habs, hhost2, hfind]

/-- Witness for C6 at the spec's redirect seed scenario: the upstream's
redirect to the external OAuth provider is rewritten onto the proxy under the
external-oauth route's pathPrefix, query preserved. -/
theorem c6_rewritten_location_witness :
    RewriteRedirect "https://external-oauth-provider.com/oauth/authorize?client_id=123"
        ⟨"https", "external-oauth-provider.com", "/oauth/authorize", "client_id=123", ""⟩
        "proxy.example" "https" [routeOAuth] routeApi
      = ("https://proxy.example/external-oauth/oauth/authorize?client_id=123",
          true, "external_known") := by
  have h := c6_rewritten_location
    "https://external-oauth-provider.com/oauth/authorize?client_id=123"
    ⟨"https", "external-oauth-provider.com", "/oauth/authorize", "client_id=123", ""⟩
    "proxy.example" "https" [routeOAuth] routeApi routeOAuth (by decide)
  exact (h.2.1 (by decide) (by decide)).trans (by decide)

/-- C10: the redirect classifier compares parsed authorities by string
equality. A Location that is not an absolute URL — a network-path reference
with an empty scheme included — is classified relative and returned
unchanged whatever its host; an absolute Location whose authority matches no
route's upstream authority — an explicit port against a portless upstream
included — is classified external unknown and returned unchanged. -/
theorem c10_authority_classification (location : String) (locURL : URL)
    (incomingHost incomingScheme : String) (routes : List RouteConfig)
    (cur : RouteConfig) :
    (locURL.isAbs = false →
      RewriteRedirect location locURL incomingHost incomingScheme routes cur
        = (location, false, "relative"))
      ∧ (locURL.isAbs = true →
          locURL.host ≠ cur.upstream.host →
          routes.find? (fun route => locURL.host == route.upstream.host) = none →
          RewriteRedirect location locURL incomingHost incomingScheme routes cur
            = (location, false, "external_unknown")) := by
  constructor
  · intro habs
    simp [RewriteRedirect, habs]
  · intro habs hhost hfind
    have hhost2 : (locURL.host == cur.upstream.host) = false := by
      simpa using hhost
    simp [RewriteRedirect, habs, hhost2, hfind]

/-- Witness for C10: the scheme-less network-path reference to up.example is
returned unchanged as relative although its host equals the known upstream's
host, and the same host carrying an explicit port 8080 matches no route and
is returned unchanged as external unknown. -/
theorem c10_authority_classification_witness :
    RewriteRedirect "//up.example/p" ⟨"", "up.example", "/p", "", ""⟩
        "h" "https" [routePlain] routePlain
      = ("//up.example/p", false, "relative")
      ∧ RewriteRedirect "http://up.example:8080/p"
          ⟨"http", "up.example:8080", "/p", "", ""⟩ "h" "https" [routePlain] routePlain
        = ("http://up.example:8080/p", false, "external_unknown") := by
  have h1 := c10_authority_classification "//up.example/p"
    ⟨"", "up.example", "/p", "", ""⟩ "h" "https" [routePlain] routePlain
  have h2 := c10_authority_classification "http://up.example:8080/p"
    ⟨"http", "up.example:8080", "/p", "", ""⟩ "h" "https" [routePlain] routePlain
  exact ⟨h1.1 (by decide), h2.2 (by decide) (by decide) (by decide)⟩

end MimicProxy
